import Mathlib

/-!
# Verification of the SOAP I/O-analysis module (`io_analysis.py`)

Shallow embedding of `dace/transformation/estimator/soap/io_analysis.py`:

* the `IOAnalysisSubgraph` dataclass and its `get_data_decomposition` method
  (the parallel data-decomposition algorithm),
* the two orchestrator entry points `perform_soap_analysis` and
  `perform_soap_analysis_einsum`.

Python dictionaries are embedded as insertion-ordered association lists
(`List (String × _)`), dictionary update as in-place overwrite that keeps
the original insertion position (as CPython does), `str.split('*')` as a
character-level splitter, and integer arithmetic on the (assumed fully
numerically substituted, per spec §9) sympy integers as `Nat` arithmetic.
The `div` lambda `(x - x % y) / y` of the source is exact floor division
for nonnegative operands, i.e. `Nat` division.  Exceptions (`KeyError`,
`UnboundLocalError`, `IndexError`) are embedded with `Except`.
-/

set_option autoImplicit false

namespace SoapVerif

universe u

/-- Python `dict` assignment `d[k] = v`: overwrites in place if the key is
present (keeping its insertion position), otherwise appends at the end. -/
def dictInsert {α : Type u} (k : String) (v : α) : List (String × α) → List (String × α)
  | [] => [(k, v)]
  | (k', v') :: rest => if k' = k then (k, v) :: rest else (k', v') :: dictInsert k v rest

/-- Python `dict` read `d[k]` (as an `Option`): first entry with the key. -/
def dict_lookup {α : Type u} (k : String) : List (String × α) → Option α
  | [] => none
  | (k', v) :: rest => if k' = k then some v else dict_lookup k rest

/-- Split a character list at every occurrence of the separator `c`. -/
def splitOnChar (c : Char) : List Char → List (List Char)
  | [] => [[]]
  | x :: xs =>
    let r := splitOnChar c xs
    if x = c then [] :: r
    else
      match r with
      | [] => [[x]]
      | y :: ys => (x :: y) :: ys

/-- Python `access.split('*')`: split a string at every `*`. -/
def splitStar (s : String) : List String :=
  (splitOnChar '*' s.data).map fun l => String.mk l

/-- The exceptions `get_data_decomposition` can raise. -/
inductive DecompError where
  /-- Python `KeyError` from `iter_ranges[it]`: the access term references an
  iterator that has no entry in the per-dimension range table.  This is the
  spec's `DecompositionRangeError`. -/
  | keyError (it : String)
  /-- Python `UnboundLocalError`/`NameError`: `par_distribution[arr] = rngs`
  executed before `rngs` was ever bound (first array has no access terms). -/
  | unboundLocal (name : String)
  /-- Python `IndexError` from `p_pos[i]` or `self.loc_domain_dims[i]`. -/
  | indexError
  deriving DecidableEq, Repr

/-- Per-iterator range table (`iter_ranges`) and per-access table (`rngs`):
iterator name ↦ half-open range `(lower, upper)`. -/
abbrev IterTable := List (String × (Nat × Nat))

/-- The returned `par_distribution`: array name ↦ (iterator ↦ range). -/
abbrev ParDist := List (String × IterTable)

/-- The `IOAnalysisSubgraph` dataclass.  Symbolic expressions that the
decomposition treats as numbers (`loc_domain_dims`, `p_grid`,
`dimensions_ordered`, the rank) are `Nat`; purely symbolic payload fields
(`Q`, `rho`, tiles) are kept as opaque strings.  `input_arrays` is the
`phis` mapping: array ↦ (compound access term ↦ list of constituent
iterator symbols). -/
structure IOAnalysisSubgraph where
  name : Nat := 0
  Q : String := ""
  rho : String := ""
  input_arrays : List (String × List (String × List String)) := []
  «variables» : List String := []
  inner_tile : List String := []
  outer_tile : List String := []
  loc_domain_dims : List Nat := []
  p_grid : List Nat := []
  dimensions_ordered : List Nat := []
  deriving DecidableEq, Repr

/-- The coordinate loop of `get_data_decomposition`:

    for dim_num, dim_size in enumerate(self.p_grid):
        p_dim = div(pp, sp.prod(self.p_grid[dim_num+1:]))
        p_pos.append(p_dim)
        pp -= p_dim * sp.prod(self.p_grid[dim_num+1:])

with `div x y = (x - x % y) / y`, i.e. exact floor division. -/
def pPosAux : List Nat → Nat → List Nat
  | [], _ => []
  | _g :: rest, pp =>
    let s := rest.prod
    let c := pp / s
    c :: pPosAux rest (pp - c * s)

/-- The range assigned to one dimension:
`(coord * loc, min ((coord + 1) * loc) dimSize)` — the body of the
`iter_ranges` comprehension. -/
def rangeOfCoord (c l d : Nat) : Nat × Nat :=
  (c * l, min ((c + 1) * l) d)

/-- The `iter_ranges` dict comprehension: iterate over
`enumerate(zip(variables, dimensions_ordered))`, reading `p_pos[i]` and
`loc_domain_dims[i]` (which raises `IndexError` when out of range). -/
def iterRangesAux (p_pos loc : List Nat) : List (String × Nat) → Nat → IterTable →
    Except DecompError IterTable
  | [], _, acc => .ok acc
  | (var, dim_size) :: rest, i, acc =>
    match p_pos[i]?, loc[i]? with
    | some c, some l => iterRangesAux p_pos loc rest (i + 1)
        (dictInsert var (rangeOfCoord c l dim_size) acc)
    | _, _ => .error .indexError

/-- `p_pos` followed by the `iter_ranges` comprehension. -/
def build_iter_ranges (sg : IOAnalysisSubgraph) (pp : Nat) : Except DecompError IterTable :=
  iterRangesAux (pPosAux sg.p_grid pp) sg.loc_domain_dims
    (sg.variables.zip sg.dimensions_ordered) 0 []

/-- The inner access loop body:

    rngs = {}
    for it in access.split('*'):
        rngs[it] = iter_ranges[it]

starting from an accumulator (initially `[]`); a missing iterator raises
`KeyError`. -/
def buildRngs (T : IterTable) : List String → IterTable → Except DecompError IterTable
  | [], rngs => .ok rngs
  | it :: rest, rngs =>
    match dict_lookup it T with
    | some r => buildRngs T rest (dictInsert it r rngs)
    | none => .error (.keyError it)

/-- The loop `for access, pars in accesses.items()`.  The state is the
current binding of the local variable `rngs` (`none` = not yet bound);
each access rebinds it, so after the loop only the last access's table
remains. -/
def accessLoop (T : IterTable) : Option IterTable → List (String × List String) →
    Except DecompError (Option IterTable)
  | st, [] => .ok st
  | _st, (access, _pars) :: rest =>
    match buildRngs T (splitStar access) [] with
    | .error e => .error e
    | .ok rngs => accessLoop T (some rngs) rest

/-- The loop `for arr, accesses in self.input_arrays.items()`, threading the
leaked `rngs` binding across arrays; `par_distribution[arr] = rngs` raises
`UnboundLocalError` when `rngs` was never bound. -/
def arrLoop (T : IterTable) : Option IterTable →
    List (String × List (String × List String)) → Except DecompError ParDist
  | _, [] => .ok []
  | st, (arr, accesses) :: rest =>
    match accessLoop T st accesses with
    | .error e => .error e
    | .ok none => .error (.unboundLocal "rngs")
    | .ok (some rngs) =>
      match arrLoop T (some rngs) rest with
      | .error e => .error e
      | .ok tail => .ok ((arr, rngs) :: tail)

/-- `IOAnalysisSubgraph.get_data_decomposition(self, pp)`.  The idle-rank
branch prints a diagnostic (a side effect with no bearing on the result)
and returns the empty dict. -/
def get_data_decomposition (sg : IOAnalysisSubgraph) (pp : Nat) : Except DecompError ParDist :=
  if sg.p_grid.prod ≤ pp then .ok []
  else
    match build_iter_ranges sg pp with
    | .error e => .error e
    | .ok T => arrLoop T none sg.input_arrays

/-! ## Specification-side views of the decomposition

Closed forms the theorems are stated against; all are derived from the
embedded code above. -/

/-- `product(processorGrid[i+1:])`, the mixed-radix suffix product. -/
def suffixProd (grid : List Nat) (i : Nat) : Nat := (grid.drop (i + 1)).prod

/-- The coordinate of rank `pp` in dimension `i`, as computed by the
coordinate loop of `get_data_decomposition`. -/
def dimCoord (grid : List Nat) (pp i : Nat) : Nat := (pPosAux grid pp).getD i 0

/-- The half-open range rank `pp` receives in dimension `i`. -/
def dimRange (grid loc glob : List Nat) (pp i : Nat) : Nat × Nat :=
  rangeOfCoord (dimCoord grid pp i) (loc.getD i 0) (glob.getD i 0)

/-- The `iter_ranges` table written as an explicit map over dimensions. -/
def specIterTable (sg : IOAnalysisSubgraph) (pp : Nat) : IterTable :=
  (List.range sg.variables.length).map fun i =>
    (sg.variables.getD i "", dimRange sg.p_grid sg.loc_domain_dims sg.dimensions_ordered pp i)

/-- Decidable equality of embedded results. -/
instance {ε α : Type u} [DecidableEq ε] [DecidableEq α] : DecidableEq (Except ε α) := fun x y =>
  match x, y with
  | .ok a, .ok b =>
    if h : a = b then isTrue (by rw [h]) else isFalse (fun hc => h (Except.ok.inj hc))
  | .error a, .error b =>
    if h : a = b then isTrue (by rw [h]) else isFalse (fun hc => h (Except.error.inj hc))
  | .ok _, .error _ => isFalse (fun hc => Except.noConfusion hc)
  | .error _, .ok _ => isFalse (fun hc => Except.noConfusion hc)

/-- The spec's concrete example A: `processorGrid=[2,2]`,
`localDomainDims=[4,4]`, `globalDims=[8,8]`, `variables=[i,j]`, with a single
array read through the compound access term `i*j`. -/
def sgExampleA : IOAnalysisSubgraph :=
  { «variables» := ["i", "j"], p_grid := [2, 2], loc_domain_dims := [4, 4],
    dimensions_ordered := [8, 8], input_arrays := [("A", [("i*j", ["i", "j"])])] }

/-- Counterexample input for C3: array `A` has two access terms, `i` then
`j`, whose constituent sets differ. -/
def sgC3 : IOAnalysisSubgraph :=
  { «variables» := ["i", "j"], p_grid := [1, 1], loc_domain_dims := [4, 4],
    dimensions_ordered := [4, 4], input_arrays := [("A", [("i", ["i"]), ("j", ["j"])])] }

/-- Witness input realizing the spec's example B: `i*k` is the (only, hence
last) access term of array `A`. -/
def sgC3w : IOAnalysisSubgraph :=
  { «variables» := ["i", "k"], p_grid := [2, 1], loc_domain_dims := [4, 8],
    dimensions_ordered := [8, 8], input_arrays := [("A", [("i*k", ["i", "k"])])] }

/-- Counterexample input for C7: the access term `z` of array `B` references
an undeclared iterator, but array `A` has no access terms at all. -/
def sgC7 : IOAnalysisSubgraph :=
  { «variables» := ["i"], p_grid := [1], loc_domain_dims := [4], dimensions_ordered := [4],
    input_arrays := [("A", []), ("B", [("z", ["z"])])] }

/-- Witness input for C7: the first array resolves, and array `B` references
the undeclared iterator `z`. -/
def sgC7w : IOAnalysisSubgraph :=
  { «variables» := ["i"], p_grid := [1], loc_domain_dims := [4], dimensions_ordered := [4],
    input_arrays := [("A", [("i", ["i"])]), ("B", [("z", ["z"])])] }

/-- Witness input for C10 part (a): the first array has no access terms. -/
def sgC10a : IOAnalysisSubgraph :=
  { «variables» := ["i"], p_grid := [1], loc_domain_dims := [4], dimensions_ordered := [4],
    input_arrays := [("A", []), ("B", [("i", ["i"])])] }

/-- Witness input for C10 part (b): array `B` has no access terms and follows
array `A`. -/
def sgC10b : IOAnalysisSubgraph :=
  { «variables» := ["i"], p_grid := [1], loc_domain_dims := [4], dimensions_ordered := [4],
    input_arrays := [("A", [("i", ["i"])]), ("B", [])] }

/-! ## Embedding of the orchestrators

`perform_soap_analysis` and `perform_soap_analysis_einsum` drive
collaborators that live outside this module (`Solver`, `SDG`, `sdfg_gen`,
`parse_params`); those are modelled from the spec (§4.1, §4.2, §4.3, §6) as
explicit parameters and event-emitting stubs, while the orchestration logic
itself is embedded from the source.  Each orchestrator returns its Python
result (or exception) together with the ordered trace of collaborator
events it caused. -/

/-- Observable collaborator events of one orchestrator call. -/
inductive Event where
  /-- `solver.start_solver(remote)`: the session is opened. -/
  | solverStart (remote : Bool)
  /-- `solver.set_timeout(secs)`. -/
  | setTimeout (secs : Nat)
  /-- one solve request issued by the engine for subgraph number `sub`. -/
  | solverCall (sub : Nat)
  /-- `solver.end_solver()`: the session is released. -/
  | solverEnd
  /-- `subgr.init_decomposition(...)` on the live subgraph named `sub`. -/
  | initDecomp (sub : Nat)
  deriving DecidableEq, Repr

/-- Python-level failures of the orchestrators. -/
inductive PyError where
  /-- Python `UnboundLocalError`: a local variable read before assignment. -/
  | unboundLocalError (name : String)
  /-- The spec's `PreconditionFailure`: the kernel graph is not weakly
  connected.  Modelled from the spec (§4.2). -/
  | preconditionFailure
  deriving DecidableEq, Repr

/-- Modelled from the spec: the `SOAPParameters` record `parse_params`
produces (§6 configuration); only the solver-relevant flags are observable
here. -/
structure SOAPParameters where
  only_cached : Bool := false
  caching_solver_solutions : Bool := false
  remoteMatlab : Bool := false
  deriving DecidableEq, Repr

/-- Modelled from the spec: a live subgraph produced by the Analysis Engine
(§4.2 `analyze`).  It carries the per-region analysis results (`Q`,
`rhoOpts`, `variables`, tiles, `phis`) and its decomposition fields, unset
until `init_decomposition` runs; `decompLoc`, `decompGrid` and `decompGlob`
are the values the decomposition strategy would select for it, abstracted
as data since the strategy belongs to the engine, outside this module. -/
structure LiveSubgraph where
  name : Nat := 0
  Q : String := ""
  rhoOpts : String := ""
  «variables» : List String := []
  inner_tile : List String := []
  outer_tile : List String := []
  phis : List (String × List (String × List String)) := []
  loc_domain_dims : List Nat := []
  p_grid : List Nat := []
  dimensions_ordered : List Nat := []
  decompLoc : List Nat := []
  decompGrid : List Nat := []
  decompGlob : List Nat := []
  deriving DecidableEq, Repr

/-- Modelled from the spec: `subgr.init_decomposition(decomposition_params,
params)` (§4.2 `initDecomposition`) populates the three decomposition fields
of the live subgraph with the strategy's choice; idempotent. -/
def init_decomposition (sg : LiveSubgraph) : LiveSubgraph :=
  { sg with
    loc_domain_dims := sg.decompLoc
    p_grid := sg.decompGrid
    dimensions_ordered := sg.decompGlob }

/-- Modelled from the spec: an SDFG as delivered by the compiler frontend or
by the einsum generator (§6).  The number of weakly connected components of
the SDG built from it, and the engine's results on it, are abstracted as
data of the input. -/
structure SDFGModel where
  components : Nat := 1
  engineQ : String := ""
  engineSubgraphs : List LiveSubgraph := []
  deriving DecidableEq, Repr

/-- Modelled from the spec: the symbolic kernel graph built by
`SDG(sdfg, params)` (§2, §3). -/
structure SDGModel where
  components : Nat
  engineQ : String
  engineSubgraphs : List LiveSubgraph
  deriving DecidableEq, Repr

/-- Modelled from the spec: SDG construction from an SDFG. -/
def SDG_of (sdfg : SDFGModel) : SDGModel :=
  { components := sdfg.components, engineQ := sdfg.engineQ,
    engineSubgraphs := sdfg.engineSubgraphs }

/-- Modelled from the spec: `sdg.calculate_IO_of_SDG(params)` (§4.2
`analyze`): its precondition is that the graph is weakly connected, a
violation being a fatal `PreconditionFailure` raised before any solver
call; otherwise it solves one sub-problem per region through the optimizer
session and returns the global bound with the live subgraphs. -/
def calculate_IO_of_SDG (sdg : SDGModel) :
    Except PyError (String × List LiveSubgraph) × List Event :=
  if sdg.components ≠ 1 then (.error .preconditionFailure, [])
  else (.ok (sdg.engineQ, sdg.engineSubgraphs),
    (List.range sdg.engineSubgraphs.length).map Event.solverCall)

/-- The `IOAnalysis` result dataclass; `name` receives the literal class
name string `"SDFG"` in the source. -/
structure IOAnalysisRecord where
  name : String
  Q : String
  sdg : SDGModel
  subgraphs : List IOAnalysisSubgraph
  deriving DecidableEq, Repr

/-- The session-opening preamble both orchestrators run when no parameters
are supplied: construct a `Solver` from the parsed configuration, start it,
and set its timeout to 300 seconds. -/
def sessionOpenEvents (cfg : SOAPParameters) : List Event :=
  [Event.solverStart cfg.remoteMatlab, Event.setTimeout 300]

/-- The events of the `if params == []:` preamble: a session is opened only
when the caller supplied no parameters. -/
def openEventsOf (cfg : SOAPParameters) : Option SOAPParameters → List Event
  | none => sessionOpenEvents cfg
  | some _ => []

/-- `perform_soap_analysis(sdfg, generate_schedule=False)`.

The source's first statement is `if not params:`, but `params` is not a
parameter of the function (only its docstring lists it) and is first
assigned inside that `if` body, making it an uninitialized local of the
function: every call raises `UnboundLocalError` there, before the solver is
constructed, the SDG is built, the weak-connectivity assertion runs, or any
snapshot is produced.  The embedding therefore returns that exception with
an empty event trace; everything after the first statement is unreachable. -/
def perform_soap_analysis (_sdfg : SDFGModel) (_generate_schedule : Bool) :
    Except PyError IOAnalysisRecord × List Event :=
  (.error (.unboundLocalError "params"), [])

/-- `perform_soap_analysis(sdfg)` with the source's default
`generate_schedule=False`. -/
def perform_soap_analysis_default (sdfg : SDFGModel) :
    Except PyError IOAnalysisRecord × List Event :=
  perform_soap_analysis sdfg false

/-- The einsum orchestrator's per-subgraph loop body: construct the
`IOAnalysisSubgraph` snapshot from the live subgraph, optionally run
`init_decomposition` on the live subgraph, then copy the three decomposition
fields from the (possibly updated) live subgraph — the copies happen
unconditionally in this entry point. -/
def snapshotEinsum (generate_schedule : Bool) (subgr : LiveSubgraph) : IOAnalysisSubgraph :=
  let subgr2 := if generate_schedule then init_decomposition subgr else subgr
  { name := subgr.name, Q := subgr.Q, rho := subgr.rhoOpts,
    «variables» := subgr.variables, inner_tile := subgr.inner_tile,
    outer_tile := subgr.outer_tile, input_arrays := subgr.phis,
    loc_domain_dims := subgr2.loc_domain_dims, p_grid := subgr2.p_grid,
    dimensions_ordered := subgr2.dimensions_ordered }

/-- `perform_soap_analysis_einsum(einsum_string, params=[], generate_schedule=True)`.

`gen` is the external einsum-to-SDFG generator (`sdfg_gen`, a §6
collaborator, passed explicitly); `cfg` is the configuration `parse_params`
would read.  When `params?` is `none` (the `params == []` default) the call
opens its own session and sets the 300-second timeout.  No branch of the
source calls `end_solver`. -/
def perform_soap_analysis_einsum (gen : String → SDFGModel) (cfg : SOAPParameters)
    (einsum_string : String) (params? : Option SOAPParameters)
    (generate_schedule : Bool) :
    Except PyError IOAnalysisRecord × List Event :=
  let openEvents := openEventsOf cfg params?
  let sdg := SDG_of (gen einsum_string)
  match calculate_IO_of_SDG sdg with
  | (.error e, ev) => (.error e, openEvents ++ ev)
  | (.ok (q, subgraphs), ev) =>
    let initEvents := if generate_schedule
      then subgraphs.map fun s => Event.initDecomp s.name
      else []
    (.ok { name := "SDFG", Q := q, sdg := sdg,
           subgraphs := subgraphs.map (snapshotEinsum generate_schedule) },
     openEvents ++ ev ++ initEvents)

/-- `perform_soap_analysis_einsum(einsum_string, params)` with the source's
default `generate_schedule=True`. -/
def perform_soap_analysis_einsum_default (gen : String → SDFGModel) (cfg : SOAPParameters)
    (einsum_string : String) (params? : Option SOAPParameters) :
    Except PyError IOAnalysisRecord × List Event :=
  perform_soap_analysis_einsum gen cfg einsum_string params? true

/-- A one-subgraph generator used by concrete orchestrator runs: every
einsum string yields a connected SDFG whose single region is named 0. -/
def genConn : String → SDFGModel :=
  fun _ => { components := 1, engineQ := "Q",
             engineSubgraphs := [{ name := 0, decompLoc := [4], decompGrid := [2],
                                   decompGlob := [8] }] }

/-- A generator yielding a disconnected SDFG (two weakly connected
components). -/
def genDisc : String → SDFGModel :=
  fun _ => { components := 2, engineQ := "Q",
             engineSubgraphs := [{ name := 0 }] }

/-! ## Arithmetic of the coordinate loop -/

-- Sanity checks on concrete example A of the spec.
example : pPosAux [2, 2] 1 = [0, 1] := by decide
example : pPosAux [2, 2] 2 = [1, 0] := by decide
example : splitStar "i*k" = ["i", "k"] := by decide

theorem pPosAux_length (grid : List Nat) : ∀ pp, (pPosAux grid pp).length = grid.length := by
  induction grid with
  | nil => intro pp; rfl
  | cons g rest ih => intro pp; simp [pPosAux, ih]

theorem lt_div_succ_mul (x l : Nat) (hl : 0 < l) : x < (x / l + 1) * l := by
  have h1 := Nat.div_add_mod x l
  have h2 := Nat.mod_lt x hl
  have h3 : (x / l + 1) * l = l * (x / l) + l := by ring
  omega

/-- Factor the grid product around position `i`. -/
theorem prod_factor (l : List Nat) (i : Nat) (hi : i < l.length) :
    l.prod = (l.take i).prod * (l.getD i 0 * (l.drop (i + 1)).prod) := by
  conv_lhs => rw [← List.take_append_drop i l]
  rw [List.prod_append, List.drop_eq_getElem_cons hi, List.prod_cons,
    List.getD_eq_getElem l 0 hi]

/-- Closed form of the coordinate loop: for a non-idle rank the running
remainder construction computes `coord i = (pp / suffixProd i) % grid[i]`,
the row-major mixed-radix unranking of `pp`. -/
theorem pPosAux_getD (grid : List Nat) : ∀ pp, (∀ g ∈ grid, 0 < g) → pp < grid.prod →
    ∀ i, i < grid.length →
    (pPosAux grid pp).getD i 0 = (pp / suffixProd grid i) % grid.getD i 0 := by
  induction grid with
  | nil => intro pp _ _ i hi; simp at hi
  | cons g rest ih =>
    intro pp hpos hlt i hi
    have hs : 0 < rest.prod := List.prod_pos fun a ha => hpos a (List.mem_cons_of_mem g ha)
    have hsub : pp - pp / rest.prod * rest.prod = pp % rest.prod := by
      have h1 := Nat.div_add_mod pp rest.prod
      have h2 : pp / rest.prod * rest.prod = rest.prod * (pp / rest.prod) := Nat.mul_comm _ _
      omega
    cases i with
    | zero =>
      have hdiv : pp / rest.prod < g := by
        apply Nat.div_lt_of_lt_mul
        have h4 : (g :: rest).prod = g * rest.prod := List.prod_cons
        have h5 : rest.prod * g = g * rest.prod := Nat.mul_comm _ _
        omega
      simp [pPosAux, suffixProd, Nat.mod_eq_of_lt hdiv]
    | succ i =>
      have hi' : i < rest.length := by simpa using hi
      have hmodlt : pp % rest.prod < rest.prod := Nat.mod_lt pp hs
      have step := ih (pp % rest.prod) (fun a ha => hpos a (List.mem_cons_of_mem g ha)) hmodlt i hi'
      have key : pp % rest.prod / suffixProd rest i % rest.getD i 0 =
          pp / suffixProd rest i % rest.getD i 0 := by
        have hfac := prod_factor rest i hi'
        have hre : rest.prod = suffixProd rest i * (rest.getD i 0 * (rest.take i).prod) := by
          rw [hfac]; simp only [suffixProd]; ring
        rw [hre, Nat.mod_mul_right_div_self,
          Nat.mod_mod_of_dvd _ (Dvd.intro _ rfl)]
      calc (pPosAux (g :: rest) pp).getD (i + 1) 0
          = (pPosAux rest (pp % rest.prod)).getD i 0 := by
            simp [pPosAux, hsub]
        _ = pp % rest.prod / suffixProd rest i % rest.getD i 0 := step
        _ = pp / suffixProd rest i % rest.getD i 0 := key
        _ = pp / suffixProd (g :: rest) (i + 1) % (g :: rest).getD (i + 1) 0 := by
            simp [suffixProd]

/-- For valid inputs every coordinate is below its grid extent. -/
theorem dimCoord_lt (grid : List Nat) (pp i : Nat) (hpos : ∀ g ∈ grid, 0 < g)
    (hlt : pp < grid.prod) (hi : i < grid.length) : dimCoord grid pp i < grid.getD i 0 := by
  have hq : 0 < grid.getD i 0 := by
    rw [List.getD_eq_getElem grid 0 hi]
    exact hpos _ (List.getElem_mem hi)
  rw [dimCoord, pPosAux_getD grid pp hpos hlt i hi]
  exact Nat.mod_lt _ hq

/-- A rank whose dimension-`i` coordinate is any desired `c < grid[i]`
exists below the total rank count: `c * suffixProd i` works. -/
theorem exists_rank_with_coord (grid : List Nat) (i c : Nat) (hpos : ∀ g ∈ grid, 0 < g)
    (hi : i < grid.length) (hc : c < grid.getD i 0) :
    ∃ r, r < grid.prod ∧ dimCoord grid r i = c := by
  have hsuf : 0 < suffixProd grid i :=
    List.prod_pos fun a ha => hpos a (List.mem_of_mem_drop ha)
  have htake : 0 < (grid.take i).prod :=
    List.prod_pos fun a ha => hpos a (List.mem_of_mem_take ha)
  have hfac := prod_factor grid i hi
  have h1 : c * suffixProd grid i < grid.getD i 0 * suffixProd grid i :=
    (Nat.mul_lt_mul_right hsuf).mpr hc
  have h2 : grid.getD i 0 * suffixProd grid i ≤ grid.prod := by
    rw [hfac]; exact Nat.le_mul_of_pos_left _ htake
  have hr : c * suffixProd grid i < grid.prod := by omega
  refine ⟨c * suffixProd grid i, hr, ?_⟩
  rw [dimCoord, pPosAux_getD grid _ hpos hr i hi,
    Nat.mul_div_cancel _ hsuf, Nat.mod_eq_of_lt hc]

/-! ## The `iter_ranges` table -/

theorem dictInsert_of_not_mem {α : Type u} (k : String) (v : α) (l : List (String × α))
    (h : k ∉ l.map Prod.fst) : dictInsert k v l = l ++ [(k, v)] := by
  induction l with
  | nil => rfl
  | cons p rest ih =>
    simp only [List.map_cons, List.mem_cons] at h
    push_neg at h
    have h1 : ¬ p.1 = k := fun he => h.1 he.symm
    simp [dictInsert, h1, ih h.2]

/-- Characterization of the `iter_ranges` comprehension when every index is
in bounds and the iterator names are distinct: it succeeds and produces one
entry per dimension, in dimension order. -/
theorem iterRangesAux_eq (p_pos loc : List Nat) :
    ∀ (pairs : List (String × Nat)) (i : Nat) (acc : IterTable),
      (∀ j, j < pairs.length → i + j < p_pos.length ∧ i + j < loc.length) →
      (acc.map Prod.fst ++ pairs.map Prod.fst).Nodup →
      iterRangesAux p_pos loc pairs i acc =
        .ok (acc ++ pairs.mapIdx fun j vd =>
          (vd.1, rangeOfCoord (p_pos.getD (i + j) 0) (loc.getD (i + j) 0) vd.2)) := by
  intro pairs
  induction pairs with
  | nil => intro i acc _ _; simp [iterRangesAux]
  | cons vd rest ih =>
    intro i acc hb hnd
    obtain ⟨v, d⟩ := vd
    have h0 := hb 0 (by simp)
    have hpi : p_pos[i]? = some (p_pos.getD i 0) := by
      rw [List.getElem?_eq_getElem (by omega), List.getD_eq_getElem p_pos 0 (by omega)]
    have hli : loc[i]? = some (loc.getD i 0) := by
      rw [List.getElem?_eq_getElem (by omega), List.getD_eq_getElem loc 0 (by omega)]
    have hfresh : v ∉ acc.map Prod.fst := by
      intro hin
      have hdisj := List.disjoint_of_nodup_append hnd
      exact hdisj hin (by simp)
    simp only [iterRangesAux, hpi, hli]
    rw [dictInsert_of_not_mem _ _ _ hfresh]
    have hb' : ∀ j, j < rest.length → i + 1 + j < p_pos.length ∧ i + 1 + j < loc.length := by
      intro j hj
      have := hb (j + 1) (by simpa using Nat.succ_lt_succ hj)
      omega
    have hnd' : ((acc ++ [(v, rangeOfCoord (p_pos.getD i 0) (loc.getD i 0) d)]).map Prod.fst
        ++ rest.map Prod.fst).Nodup := by
      simpa [List.append_assoc] using hnd
    rw [ih (i + 1) _ hb' hnd']
    have hfun : (fun (j : Nat) (vd : String × Nat) =>
          (vd.1, rangeOfCoord (p_pos.getD (i + 1 + j) 0) (loc.getD (i + 1 + j) 0) vd.2)) =
        fun (j : Nat) (vd : String × Nat) =>
          (vd.1, rangeOfCoord (p_pos.getD (i + (j + 1)) 0) (loc.getD (i + (j + 1)) 0) vd.2) := by
      funext j vd
      have harith : i + 1 + j = i + (j + 1) := by omega
      rw [harith]
    simp only [List.mapIdx_cons, Nat.add_zero, hfun, List.append_assoc, List.cons_append,
      List.nil_append]

/-- For well-formed inputs `build_iter_ranges` succeeds and equals the
explicit per-dimension table `specIterTable`. -/
theorem build_iter_ranges_eq (sg : IOAnalysisSubgraph) (pp N : Nat)
    (hv : sg.variables.length = N) (hg : sg.p_grid.length = N)
    (hl : sg.loc_domain_dims.length = N) (hd : sg.dimensions_ordered.length = N)
    (hnd : sg.variables.Nodup) :
    build_iter_ranges sg pp = .ok (specIterTable sg pp) := by
  have hzlen : (sg.variables.zip sg.dimensions_ordered).length = N := by
    simp [List.length_zip, hv, hd]
  have hplen : (pPosAux sg.p_grid pp).length = N := by
    rw [pPosAux_length]; exact hg
  have hzfst : (sg.variables.zip sg.dimensions_ordered).map Prod.fst = sg.variables :=
    List.map_fst_zip _ _ (by omega)
  rw [build_iter_ranges, iterRangesAux_eq _ _ _ 0 []
    (fun j hj => by rw [hzlen] at hj; omega)
    (by simpa [hzfst] using hnd)]
  congr 1
  apply List.ext_getElem
  · simp [hzlen, specIterTable, hv]
  · intro j h1 h2
    have hjN : j < N := by simpa [hzlen] using h1
    have hjv : j < sg.variables.length := by omega
    have hjd : j < sg.dimensions_ordered.length := by omega
    simp only [List.nil_append, List.getElem_mapIdx, specIterTable, List.getElem_map,
      List.getElem_range, List.getElem_zip, Nat.zero_add]
    rw [List.getD_eq_getElem sg.variables "" hjv, dimRange, dimCoord,
      List.getD_eq_getElem sg.dimensions_ordered 0 hjd]

/-! ## Lookup properties of the embedded dictionaries -/

theorem dict_lookup_none_iff {α : Type u} (k : String) (l : List (String × α)) :
    dict_lookup k l = none ↔ k ∉ l.map Prod.fst := by
  induction l with
  | nil => simp [dict_lookup]
  | cons p rest ih =>
    obtain ⟨k', v⟩ := p
    by_cases h : k' = k
    · subst h; simp [dict_lookup]
    · simp only [dict_lookup, if_neg h, List.map_cons, List.mem_cons, ih]
      constructor
      · rintro hnot (hkk | hin)
        · exact h hkk.symm
        · exact hnot hin
      · intro hnot hin
        exact hnot (Or.inr hin)

theorem dict_lookup_dictInsert_self {α : Type u} (k : String) (v : α) (l : List (String × α)) :
    dict_lookup k (dictInsert k v l) = some v := by
  induction l with
  | nil => simp [dictInsert, dict_lookup]
  | cons p rest ih =>
    by_cases h : p.1 = k
    · simp [dictInsert, dict_lookup, h]
    · simp [dictInsert, dict_lookup, h, ih]

theorem dict_lookup_dictInsert_ne {α : Type u} (k k' : String) (v : α) (l : List (String × α))
    (hne : k' ≠ k) : dict_lookup k' (dictInsert k v l) = dict_lookup k' l := by
  have hkk : ¬ k = k' := fun h => hne h.symm
  induction l with
  | nil => simp [dictInsert, dict_lookup, hkk]
  | cons p rest ih =>
    by_cases h : p.1 = k
    · have hp : ¬ p.1 = k' := by rw [h]; exact hkk
      simp [dictInsert, dict_lookup, h, hkk, hp]
    · by_cases hp : p.1 = k'
      · simp [dictInsert, dict_lookup, h, hp, hne]
      · simp [dictInsert, dict_lookup, h, hp, ih]

/-- The keys of the explicit range table are exactly the iterators. -/
theorem specIterTable_keys (sg : IOAnalysisSubgraph) (pp : Nat) :
    (specIterTable sg pp).map Prod.fst = sg.variables := by
  apply List.ext_getElem
  · simp [specIterTable]
  · intro i h1 h2
    simp only [specIterTable, List.map_map, List.getElem_map, List.getElem_range,
      Function.comp_apply]
    exact List.getD_eq_getElem sg.variables "" h2

/-! ## The access-resolution loops -/

/-- A successful `buildRngs` run binds exactly the constituents of the access
term, each to its `iter_ranges` entry; other keys keep their prior binding. -/
theorem buildRngs_ok_lookup (T : IterTable) :
    ∀ (its : List String) (r0 r : IterTable), buildRngs T its r0 = .ok r →
      ∀ k, dict_lookup k r = if k ∈ its then dict_lookup k T else dict_lookup k r0 := by
  intro its
  induction its with
  | nil =>
    intro r0 r h k
    simp only [buildRngs] at h
    cases h
    simp
  | cons it rest ih =>
    intro r0 r h k
    simp only [buildRngs] at h
    cases hT : dict_lookup it T with
    | none => rw [hT] at h; exact absurd h (by simp)
    | some v =>
      rw [hT] at h
      have hstep := ih _ r h k
      by_cases hk1 : k ∈ rest
      · simp [hk1, hstep]
      · by_cases hk2 : k = it
        · subst hk2
          simp [hk1, hstep, dict_lookup_dictInsert_self, hT]
        · simp [hk1, hk2, hstep, dict_lookup_dictInsert_ne _ _ _ _ hk2]

theorem buildRngs_error_shape (T : IterTable) :
    ∀ (its : List String) (r0 : IterTable) (e : DecompError), buildRngs T its r0 = .error e →
      ∃ s, e = .keyError s ∧ dict_lookup s T = none := by
  intro its
  induction its with
  | nil => intro r0 e h; simp [buildRngs] at h
  | cons it rest ih =>
    intro r0 e h
    simp only [buildRngs] at h
    cases hT : dict_lookup it T with
    | none =>
      rw [hT] at h
      exact ⟨it, by cases h; exact ⟨rfl, hT⟩⟩
    | some v => rw [hT] at h; exact ih _ e h

theorem buildRngs_error_of_missing (T : IterTable) :
    ∀ (its : List String) (r0 : IterTable), (∃ it ∈ its, dict_lookup it T = none) →
      ∃ s, buildRngs T its r0 = .error (.keyError s) ∧ dict_lookup s T = none := by
  intro its
  induction its with
  | nil => rintro r0 ⟨it, hin, _⟩; simp at hin
  | cons it0 rest ih =>
    rintro r0 ⟨it, hin, hnone⟩
    cases hT : dict_lookup it0 T with
    | none => exact ⟨it0, by simp [buildRngs, hT], hT⟩
    | some v =>
      have hit : it ∈ rest := by
        rcases List.mem_cons.mp hin with h | h
        · subst h; rw [hT] at hnone; cases hnone
        · exact h
      obtain ⟨s, hs, hsnone⟩ := ih (dictInsert it0 v r0) ⟨it, hit, hnone⟩
      exact ⟨s, by simp [buildRngs, hT, hs], hsnone⟩

theorem buildRngs_ok_of_resolves (T : IterTable) :
    ∀ (its : List String) (r0 : IterTable), (∀ it ∈ its, dict_lookup it T ≠ none) →
      ∃ r, buildRngs T its r0 = .ok r := by
  intro its
  induction its with
  | nil => intro r0 _; exact ⟨r0, rfl⟩
  | cons it0 rest ih =>
    intro r0 hres
    cases hT : dict_lookup it0 T with
    | none => exact absurd hT (hres it0 (by simp))
    | some v =>
      obtain ⟨r, hr⟩ := ih (dictInsert it0 v r0) fun it hin => hres it (by simp [hin])
      exact ⟨r, by simp [buildRngs, hT, hr]⟩

theorem accessLoop_error_shape (T : IterTable) :
    ∀ (accs : List (String × List String)) (st : Option IterTable) (e : DecompError),
      accessLoop T st accs = .error e → ∃ s, e = .keyError s := by
  intro accs
  induction accs with
  | nil => intro st e h; simp [accessLoop] at h
  | cons a0 rest ih =>
    intro st e h
    obtain ⟨acc, pars⟩ := a0
    simp only [accessLoop] at h
    cases hb : buildRngs T (splitStar acc) [] with
    | error e2 =>
      rw [hb] at h
      cases h
      obtain ⟨s, hs, _⟩ := buildRngs_error_shape T _ _ _ hb
      exact ⟨s, hs⟩
    | ok rngs => rw [hb] at h; exact ih _ e h

theorem accessLoop_last (T : IterTable) :
    ∀ (accs : List (String × List String)) (st res : Option IterTable),
      accs ≠ [] → accessLoop T st accs = .ok res →
      ∃ last rngs, accs.getLast? = some last ∧
        buildRngs T (splitStar last.1) [] = .ok rngs ∧ res = some rngs := by
  intro accs
  induction accs with
  | nil => intro st res hne _; exact absurd rfl hne
  | cons a0 rest ih =>
    intro st res _ h
    obtain ⟨acc, pars⟩ := a0
    simp only [accessLoop] at h
    cases hb : buildRngs T (splitStar acc) [] with
    | error e => rw [hb] at h; cases h
    | ok rngs =>
      rw [hb] at h
      cases rest with
      | nil =>
        simp only [accessLoop] at h
        cases h
        exact ⟨(acc, pars), rngs, rfl, hb, rfl⟩
      | cons b t =>
        obtain ⟨last, rngs2, hlast, hbuild, hres⟩ := ih (some rngs) res (by simp) h
        exact ⟨last, rngs2, by rw [List.getLast?_cons_cons]; exact hlast, hbuild, hres⟩

theorem accessLoop_ok_resolves (T : IterTable) :
    ∀ (accs : List (String × List String)) (st res : Option IterTable),
      accessLoop T st accs = .ok res →
      ∀ a ∈ accs, ∀ it ∈ splitStar a.1, dict_lookup it T ≠ none := by
  intro accs
  induction accs with
  | nil => intro st res _ a ha; simp at ha
  | cons a0 rest ih =>
    intro st res h a ha it hit hnone
    obtain ⟨acc, pars⟩ := a0
    simp only [accessLoop] at h
    cases hb : buildRngs T (splitStar acc) [] with
    | error e => rw [hb] at h; cases h
    | ok rngs =>
      rw [hb] at h
      rcases List.mem_cons.mp ha with heq | hmem
      · subst heq
        obtain ⟨s, hs, _⟩ := buildRngs_error_of_missing T (splitStar acc) [] ⟨it, hit, hnone⟩
        rw [hb] at hs
        cases hs
      · exact ih (some rngs) res h a hmem it hit hnone

theorem accessLoop_error_of_missing (T : IterTable) :
    ∀ (accs : List (String × List String)) (st : Option IterTable),
      (∃ a ∈ accs, ∃ it ∈ splitStar a.1, dict_lookup it T = none) →
      ∃ s, accessLoop T st accs = .error (.keyError s) := by
  intro accs
  induction accs with
  | nil => rintro st ⟨a, ha, _⟩; simp at ha
  | cons a0 rest ih =>
    rintro st ⟨a, ha, it, hit, hnone⟩
    obtain ⟨acc, pars⟩ := a0
    by_cases hhead : ∃ it2 ∈ splitStar acc, dict_lookup it2 T = none
    · obtain ⟨s, hs, _⟩ := buildRngs_error_of_missing T (splitStar acc) [] hhead
      exact ⟨s, by simp only [accessLoop]; rw [hs]⟩
    · obtain ⟨r, hr⟩ := buildRngs_ok_of_resolves T (splitStar acc) []
        (fun it2 hit2 hn => hhead ⟨it2, hit2, hn⟩)
      have hrest : ∃ a2 ∈ rest, ∃ it2 ∈ splitStar a2.1, dict_lookup it2 T = none := by
        rcases List.mem_cons.mp ha with heq | hmem
        · subst heq
          exact absurd ⟨it, hit, hnone⟩ hhead
        · exact ⟨a, hmem, it, hit, hnone⟩
      obtain ⟨s, hs⟩ := ih (some r) hrest
      exact ⟨s, by simp only [accessLoop]; rw [hr]; exact hs⟩

theorem accessLoop_ok_of_resolves (T : IterTable) :
    ∀ (accs : List (String × List String)) (r : IterTable),
      (∀ a ∈ accs, ∀ it ∈ splitStar a.1, dict_lookup it T ≠ none) →
      ∃ r2, accessLoop T (some r) accs = .ok (some r2) := by
  intro accs
  induction accs with
  | nil => intro r _; exact ⟨r, rfl⟩
  | cons a0 rest ih =>
    intro r hres
    obtain ⟨acc, pars⟩ := a0
    obtain ⟨rng, hb⟩ := buildRngs_ok_of_resolves T (splitStar acc) []
      (fun it hit => hres (acc, pars) (by simp) it hit)
    obtain ⟨r2, hr2⟩ := ih rng (fun a ha it hit => hres a (List.mem_cons_of_mem _ ha) it hit)
    exact ⟨r2, by simp only [accessLoop]; rw [hb]; exact hr2⟩

theorem arrLoop_entry (T : IterTable) :
    ∀ (arrs : List (String × List (String × List String))) (st : Option IterTable)
      (dist : ParDist) (arr : String) (accs : List (String × List String)),
      arrLoop T st arrs = .ok dist → (arr, accs) ∈ arrs → accs ≠ [] →
      ∃ last rngs, accs.getLast? = some last ∧
        buildRngs T (splitStar last.1) [] = .ok rngs ∧ (arr, rngs) ∈ dist := by
  intro arrs
  induction arrs with
  | nil => intro st dist arr accs _ hmem _; simp at hmem
  | cons p0 rest ih =>
    intro st dist arr accs h hmem hne
    obtain ⟨b, baccs⟩ := p0
    cases ha : accessLoop T st baccs with
    | error e => simp [arrLoop, ha] at h
    | ok st2 =>
      cases st2 with
      | none => simp [arrLoop, ha] at h
      | some rngs =>
        simp only [arrLoop, ha] at h
        cases ht : arrLoop T (some rngs) rest with
        | error e => simp [ht] at h
        | ok tail =>
          simp only [ht, Except.ok.injEq] at h
          subst h
          rcases List.mem_cons.mp hmem with heq | hmem2
          · injection heq with h1 h2
            subst h1
            subst h2
            obtain ⟨last, r2, hlast, hbuild, hres⟩ := accessLoop_last T accs st _ hne ha
            injection hres with h3
            subst h3
            exact ⟨last, rngs, hlast, hbuild, by simp⟩
          · obtain ⟨last, r2, hlast, hbuild, hmem3⟩ := ih (some rngs) tail arr accs ht hmem2 hne
            exact ⟨last, r2, hlast, hbuild, List.mem_cons_of_mem _ hmem3⟩

theorem arrLoop_pair (T : IterTable) :
    ∀ (pre : List (String × List (String × List String))) (st : Option IterTable)
      (dist : ParDist) (a1 : String) (accs1 : List (String × List String))
      (a2 : String) (l2 : List (String × List (String × List String))),
      accs1 ≠ [] →
      arrLoop T st (pre ++ (a1, accs1) :: (a2, []) :: l2) = .ok dist →
      ∃ last rngs, accs1.getLast? = some last ∧
        buildRngs T (splitStar last.1) [] = .ok rngs ∧
        (a1, rngs) ∈ dist ∧ (a2, rngs) ∈ dist := by
  intro pre
  induction pre with
  | nil =>
    intro st dist a1 accs1 a2 l2 hne h
    simp only [List.nil_append] at h
    cases ha : accessLoop T st accs1 with
    | error e => simp [arrLoop, ha] at h
    | ok st2 =>
      cases st2 with
      | none => simp [arrLoop, ha] at h
      | some rngs =>
        simp only [arrLoop, accessLoop, ha] at h
        cases ht : arrLoop T (some rngs) l2 with
        | error e => simp [ht] at h
        | ok tail =>
          simp only [ht, Except.ok.injEq] at h
          subst h
          obtain ⟨last, r2, hlast, hbuild, hres⟩ := accessLoop_last T accs1 st _ hne ha
          injection hres with h3
          subst h3
          exact ⟨last, rngs, hlast, hbuild, by simp, by simp⟩
  | cons p0 rest ih =>
    intro st dist a1 accs1 a2 l2 hne h
    obtain ⟨b, baccs⟩ := p0
    simp only [List.cons_append] at h
    cases ha : accessLoop T st baccs with
    | error e => simp [arrLoop, ha] at h
    | ok st2 =>
      cases st2 with
      | none => simp [arrLoop, ha] at h
      | some rngs =>
        simp only [arrLoop, ha] at h
        cases ht : arrLoop T (some rngs) (rest ++ (a1, accs1) :: (a2, []) :: l2) with
        | error e => simp [ht] at h
        | ok tail =>
          simp only [ht, Except.ok.injEq] at h
          subst h
          obtain ⟨last, r2, hlast, hbuild, hm1, hm2⟩ := ih (some rngs) tail a1 accs1 a2 l2 hne ht
          exact ⟨last, r2, hlast, hbuild, List.mem_cons_of_mem _ hm1, List.mem_cons_of_mem _ hm2⟩

theorem arrLoop_error_of_missing_some (T : IterTable) :
    ∀ (arrs : List (String × List (String × List String))) (r : IterTable),
      (∃ p ∈ arrs, ∃ a ∈ p.2, ∃ it ∈ splitStar a.1, dict_lookup it T = none) →
      ∃ s, arrLoop T (some r) arrs = .error (.keyError s) := by
  intro arrs
  induction arrs with
  | nil => rintro r ⟨p, hp, _⟩; simp at hp
  | cons p0 rest ih =>
    rintro r ⟨p, hp, a, hpa, it, hit, hnone⟩
    obtain ⟨b, baccs⟩ := p0
    by_cases hhead : ∃ a2 ∈ baccs, ∃ it2 ∈ splitStar a2.1, dict_lookup it2 T = none
    · obtain ⟨s, hs⟩ := accessLoop_error_of_missing T baccs (some r) hhead
      exact ⟨s, by simp only [arrLoop, hs]⟩
    · obtain ⟨r2, hr2⟩ := accessLoop_ok_of_resolves T baccs r
        (fun a2 ha2 it2 hit2 hn => hhead ⟨a2, ha2, it2, hit2, hn⟩)
      have hrest : ∃ p2 ∈ rest, ∃ a2 ∈ p2.2, ∃ it2 ∈ splitStar a2.1,
          dict_lookup it2 T = none := by
        rcases List.mem_cons.mp hp with heq | hmem
        · subst heq
          exact absurd ⟨a, hpa, it, hit, hnone⟩ hhead
        · exact ⟨p, hmem, a, hpa, it, hit, hnone⟩
      obtain ⟨s, hs⟩ := ih r2 hrest
      exact ⟨s, by simp only [arrLoop, hr2, hs]⟩

/-! ## Claims about the decomposition ranges -/

/-- Claim C1 (confirmed): for every valid decomposition of length `N`
(positive `processorGrid` and `localDomainDims`, and
`localDomainDims[i] * processorGrid[i] ≥ globalDims[i]` in every dimension),
the per-dimension ranges assigned across all ranks `r < product(processorGrid)`
exactly partition `[0, globalDims[i])`: every point below `globalDims[i]` is
covered by some rank's range, and ranks with distinct coordinates in
dimension `i` have disjoint ranges there. -/
theorem soap_C1 (grid loc glob : List Nat) (N : Nat)
    (hg : grid.length = N) (hl : loc.length = N) (hd : glob.length = N)
    (hgpos : ∀ g ∈ grid, 0 < g) (hlpos : ∀ l ∈ loc, 0 < l)
    (hfit : ∀ i, i < N → glob.getD i 0 ≤ loc.getD i 0 * grid.getD i 0)
    (i : Nat) (hi : i < N) :
    (∀ x, x < glob.getD i 0 → ∃ r, r < grid.prod ∧
        (dimRange grid loc glob r i).1 ≤ x ∧ x < (dimRange grid loc glob r i).2) ∧
    (∀ r s, r < grid.prod → s < grid.prod → dimCoord grid r i ≠ dimCoord grid s i →
        ∀ x, (dimRange grid loc glob r i).1 ≤ x → x < (dimRange grid loc glob r i).2 →
        ¬ ((dimRange grid loc glob s i).1 ≤ x ∧ x < (dimRange grid loc glob s i).2)) := by
  have hli : i < loc.length := by omega
  have hil : 0 < loc.getD i 0 := by
    rw [List.getD_eq_getElem loc 0 hli]
    exact hlpos _ (List.getElem_mem hli)
  constructor
  · intro x hx
    have hcg : x / loc.getD i 0 < grid.getD i 0 :=
      Nat.div_lt_of_lt_mul (lt_of_lt_of_le hx (hfit i hi))
    obtain ⟨r, hrlt, hrc⟩ :=
      exists_rank_with_coord grid i (x / loc.getD i 0) hgpos (by omega) hcg
    refine ⟨r, hrlt, ?_, ?_⟩
    · simp only [dimRange, rangeOfCoord, hrc]
      exact Nat.div_mul_le_self x _
    · simp only [dimRange, rangeOfCoord, hrc]
      exact lt_min (lt_div_succ_mul x _ hil) hx
  · intro r s _ _ hne x hx1 hx2 hmem
    obtain ⟨hy1, hy2⟩ := hmem
    simp only [dimRange, rangeOfCoord] at hx1 hx2 hy1 hy2
    rcases Nat.lt_or_ge (dimCoord grid r i) (dimCoord grid s i) with hcl | hge
    · have h1 : x < (dimCoord grid r i + 1) * loc.getD i 0 :=
        lt_of_lt_of_le hx2 (Nat.min_le_left _ _)
      have h2 : (dimCoord grid r i + 1) * loc.getD i 0 ≤ dimCoord grid s i * loc.getD i 0 :=
        Nat.mul_le_mul_right _ hcl
      omega
    · have hcl' : dimCoord grid s i < dimCoord grid r i := by omega
      have h1 : x < (dimCoord grid s i + 1) * loc.getD i 0 :=
        lt_of_lt_of_le hy2 (Nat.min_le_left _ _)
      have h2 : (dimCoord grid s i + 1) * loc.getD i 0 ≤ dimCoord grid r i * loc.getD i 0 :=
        Nat.mul_le_mul_right _ hcl'
      omega

/-- Witness for C1 at `processorGrid=[2,2]`, `localDomainDims=[4,4]`,
`globalDims=[8,8]`, dimension 0: the point 5 is covered by some rank below 4,
and ranks 2 and 0 (coordinates 1 and 0 in dimension 0) do not overlap at 5. -/
theorem soap_C1_witness :
    (∃ r, r < ([2, 2] : List Nat).prod ∧
        (dimRange [2, 2] [4, 4] [8, 8] r 0).1 ≤ 5 ∧ 5 < (dimRange [2, 2] [4, 4] [8, 8] r 0).2) ∧
    ¬ ((dimRange [2, 2] [4, 4] [8, 8] 0 0).1 ≤ 5 ∧ 5 < (dimRange [2, 2] [4, 4] [8, 8] 0 0).2) :=
  ⟨(soap_C1 [2, 2] [4, 4] [8, 8] 2 rfl rfl rfl (by decide) (by decide) (by decide) 0
      (by decide)).1 5 (by decide),
   (soap_C1 [2, 2] [4, 4] [8, 8] 2 rfl rfl rfl (by decide) (by decide) (by decide) 0
      (by decide)).2 2 0 (by decide) (by decide) (by decide) 5 (by decide) (by decide)⟩

-- Scratch: the distributions of example A, evaluated.
example : get_data_decomposition sgExampleA 1 = .ok [("A", [("i", (0, 4)), ("j", (4, 8))])] := by
  decide

/-- Claim C2 (confirmed): for every non-idle rank of a valid decomposition the
coordinate loop computes the row-major mixed-radix unranking — in closed form,
`coord[i] = (rank / product(grid[i+1:])) % grid[i]`, obtained by repeated exact
integer division with subtraction of `coord[i] * suffixProduct` before the next
dimension — and the range table assigns dimension `i` the half-open range
`[coord[i]*loc[i], min((coord[i]+1)*loc[i], glob[i]))`; on concrete example A,
ranks 0–3 receive exactly the spec's ranges and rank 4 is idle. -/
theorem soap_C2 (sg : IOAnalysisSubgraph) (pp N : Nat)
    (hv : sg.variables.length = N) (hg : sg.p_grid.length = N)
    (hl : sg.loc_domain_dims.length = N) (hd : sg.dimensions_ordered.length = N)
    (hnd : sg.variables.Nodup) (hpos : ∀ g ∈ sg.p_grid, 0 < g)
    (hpp : pp < sg.p_grid.prod) :
    (∀ i, i < N →
        dimCoord sg.p_grid pp i = pp / suffixProd sg.p_grid i % sg.p_grid.getD i 0) ∧
    build_iter_ranges sg pp = .ok (specIterTable sg pp) ∧
    (get_data_decomposition sgExampleA 0 = .ok [("A", [("i", (0, 4)), ("j", (0, 4))])] ∧
     get_data_decomposition sgExampleA 1 = .ok [("A", [("i", (0, 4)), ("j", (4, 8))])] ∧
     get_data_decomposition sgExampleA 2 = .ok [("A", [("i", (4, 8)), ("j", (0, 4))])] ∧
     get_data_decomposition sgExampleA 3 = .ok [("A", [("i", (4, 8)), ("j", (4, 8))])] ∧
     get_data_decomposition sgExampleA 4 = .ok []) := by
  refine ⟨?_, build_iter_ranges_eq sg pp N hv hg hl hd hnd, ?_⟩
  · intro i hiN
    exact pPosAux_getD sg.p_grid pp hpos hpp i (by omega)
  · exact ⟨by decide, by decide, by decide, by decide, by decide⟩

/-- Witness for C2 on example A at rank 1: the closed-form coordinate equation
and the explicit table characterization, instantiated. -/
theorem soap_C2_witness :
    dimCoord sgExampleA.p_grid 1 0 =
      1 / suffixProd sgExampleA.p_grid 0 % sgExampleA.p_grid.getD 0 0 ∧
    build_iter_ranges sgExampleA 1 = .ok (specIterTable sgExampleA 1) :=
  ⟨(soap_C2 sgExampleA 1 2 rfl rfl rfl rfl (by decide) (by decide) (by decide)).1 0 (by decide),
   (soap_C2 sgExampleA 1 2 rfl rfl rfl rfl (by decide) (by decide) (by decide)).2.1⟩

/-- Claim C6 (confirmed): a rank at or above `product(processorGrid)` is idle:
`get_data_decomposition` returns the empty mapping and raises no exception
(the idle diagnostic is a print, not an error). -/
theorem soap_C6 (sg : IOAnalysisSubgraph) (pp : Nat) (h : sg.p_grid.prod ≤ pp) :
    get_data_decomposition sg pp = .ok [] := by
  simp [get_data_decomposition, h]

/-- Witness for C6: a 2×2 grid with rank 4 (= product) is idle. -/
theorem soap_C6_witness :
    ([2, 2] : List Nat).prod ≤ 4 ∧
      get_data_decomposition { p_grid := [2, 2] } 4 = .ok [] :=
  ⟨by decide, soap_C6 { p_grid := [2, 2] } 4 (by decide)⟩

/-! ## Claims about the per-array composition -/

theorem specIterTable_lookup_none (sg : IOAnalysisSubgraph) (pp : Nat) (it : String) :
    dict_lookup it (specIterTable sg pp) = none ↔ it ∉ sg.variables := by
  rw [dict_lookup_none_iff, specIterTable_keys]

/-- Counterexample to C3 as stated: on `sgC3`, array `A` has access terms
`i` and then `j`, but the returned entry for `A` binds only `j` — the
constituent `i` of the first access term has no mapping, because the
per-access table `rngs` is rebuilt for each access and only the last
access's table is stored for the array. -/
theorem soap_C3_counterexample :
    get_data_decomposition sgC3 0 = .ok [("A", [("j", (0, 4))])] ∧
    dict_lookup "i" [("j", ((0 : Nat), (4 : Nat)))] = none :=
  ⟨by decide, by decide⟩

/-- Claim C3 (amended): for every non-idle rank of a valid decomposition, the
returned distribution maps each array that has at least one access term to a
table binding exactly the constituent iterators of that array's last access
term (in insertion order), each to its per-dimension range from
`iter_ranges`; constituents appearing only in earlier access terms are not
retained.  The spec's example B (`"i*k"` resolving to `{i:(0,4), k:(0,8)}`)
holds when `i*k` is the array's last access term. -/
theorem soap_C3 (sg : IOAnalysisSubgraph) (pp N : Nat)
    (hv : sg.variables.length = N) (hg : sg.p_grid.length = N)
    (hl : sg.loc_domain_dims.length = N) (hd : sg.dimensions_ordered.length = N)
    (hnd : sg.variables.Nodup) (hpp : pp < sg.p_grid.prod)
    (arr : String) (accs : List (String × List String))
    (hmem : (arr, accs) ∈ sg.input_arrays) (hne : accs ≠ [])
    (dist : ParDist) (hok : get_data_decomposition sg pp = .ok dist) :
    ∃ last rngs, accs.getLast? = some last ∧ (arr, rngs) ∈ dist ∧
      (∀ it ∈ splitStar last.1,
        dict_lookup it rngs = dict_lookup it (specIterTable sg pp)) ∧
      (∀ k, dict_lookup k rngs ≠ none → k ∈ splitStar last.1) := by
  have hidle : ¬ (sg.p_grid.prod ≤ pp) := by omega
  have htab := build_iter_ranges_eq sg pp N hv hg hl hd hnd
  simp only [get_data_decomposition, if_neg hidle, htab] at hok
  obtain ⟨last, rngs, hlast, hbuild, hentry⟩ :=
    arrLoop_entry _ sg.input_arrays none dist arr accs hok hmem hne
  have hchar := buildRngs_ok_lookup _ _ _ _ hbuild
  refine ⟨last, rngs, hlast, hentry, ?_, ?_⟩
  · intro it hit
    rw [hchar it]
    simp [hit]
  · intro k hk
    by_contra hnot
    rw [hchar k] at hk
    simp [hnot, dict_lookup] at hk

/-- Witness for C3 (and the spec's example B): on `sgC3w` at rank 0 the
entry for `A` maps the constituents of `i*k` to `i:(0,4)` and `k:(0,8)`. -/
theorem soap_C3_witness :
    ∃ last rngs,
      ([("i*k", ["i", "k"])] : List (String × List String)).getLast? = some last ∧
      ("A", rngs) ∈ [("A", [("i", ((0 : Nat), (4 : Nat))), ("k", (0, 8))])] ∧
      (∀ it ∈ splitStar last.1,
        dict_lookup it rngs = dict_lookup it (specIterTable sgC3w 0)) ∧
      (∀ k, dict_lookup k rngs ≠ none → k ∈ splitStar last.1) :=
  soap_C3 sgC3w 0 2 rfl rfl rfl rfl (by decide) (by decide) "A" [("i*k", ["i", "k"])]
    (by decide) (by decide) [("A", [("i", (0, 4)), ("k", (0, 8))])] (by decide)

/-- Counterexample to C7 as stated: rank 0 is non-idle and the access term
`z` of array `B` references an iterator with no entry in the range table,
yet the call fails with the unbound-`rngs` error (array `A`, listed first,
has no access terms), not with the `KeyError` embedding the spec's
`DecompositionRangeError`. -/
theorem soap_C7_counterexample :
    0 < sgC7.p_grid.prod ∧ ("z" ∉ sgC7.variables) ∧
    get_data_decomposition sgC7 0 = .error (.unboundLocal "rngs") :=
  ⟨by decide, by decide, by decide⟩

/-- Claim C7 (amended): for a non-idle rank of a valid decomposition, if some
compound access term contains a constituent iterator that is not among the
declared `variables`, and the first array of `input_arrays` has at least one
access term (so the unbound-`rngs` failure of C10 does not preempt), then
`get_data_decomposition` fails with the `KeyError` that embeds the spec's
`DecompositionRangeError`, rather than returning a distribution. -/
theorem soap_C7 (sg : IOAnalysisSubgraph) (pp N : Nat)
    (hv : sg.variables.length = N) (hg : sg.p_grid.length = N)
    (hl : sg.loc_domain_dims.length = N) (hd : sg.dimensions_ordered.length = N)
    (hnd : sg.variables.Nodup) (hpp : pp < sg.p_grid.prod)
    (hfirst : ∀ e ∈ sg.input_arrays.take 1, e.2 ≠ ([] : List (String × List String)))
    (hmiss : ∃ p ∈ sg.input_arrays, ∃ a ∈ p.2, ∃ it ∈ splitStar a.1, it ∉ sg.variables) :
    ∃ s, get_data_decomposition sg pp = .error (.keyError s) := by
  have hidle : ¬ (sg.p_grid.prod ≤ pp) := by omega
  have htab := build_iter_ranges_eq sg pp N hv hg hl hd hnd
  have hval : get_data_decomposition sg pp =
      arrLoop (specIterTable sg pp) none sg.input_arrays := by
    simp [get_data_decomposition, if_neg hidle, htab]
  rw [hval]
  obtain ⟨p, hp, a, hpa, it, hit, hnv⟩ := hmiss
  have hnone : dict_lookup it (specIterTable sg pp) = none :=
    (specIterTable_lookup_none sg pp it).mpr hnv
  cases harr : sg.input_arrays with
  | nil => rw [harr] at hp; simp at hp
  | cons p0 rest =>
    obtain ⟨a0, accs0⟩ := p0
    have hne0 : accs0 ≠ [] := hfirst (a0, accs0) (by rw [harr]; simp)
    rw [harr] at hp
    cases ha : accessLoop (specIterTable sg pp) none accs0 with
    | error e =>
      obtain ⟨s, hs⟩ := accessLoop_error_shape _ accs0 none e ha
      exact ⟨s, by simp [arrLoop, ha, hs]⟩
    | ok st2 =>
      obtain ⟨lastA, rngs0, _, _, hres⟩ := accessLoop_last _ accs0 none st2 hne0 ha
      subst hres
      have hrest : ∃ p2 ∈ rest, ∃ a2 ∈ p2.2, ∃ it2 ∈ splitStar a2.1,
          dict_lookup it2 (specIterTable sg pp) = none := by
        rcases List.mem_cons.mp hp with heq | hmem2
        · exfalso
          subst heq
          exact accessLoop_ok_resolves _ accs0 none _ ha a hpa it hit hnone
        · exact ⟨p, hmem2, a, hpa, it, hit, hnone⟩
      obtain ⟨s, hs⟩ := arrLoop_error_of_missing_some _ rest rngs0 hrest
      exact ⟨s, by simp [arrLoop, ha, hs]⟩

/-- Witness for C7: on `sgC7w` at rank 0, array `A` resolves and array `B`
references the undeclared iterator `z`, so the call fails with a
`KeyError`. -/
theorem soap_C7_witness :
    ∃ s, get_data_decomposition sgC7w 0 = .error (.keyError s) :=
  soap_C7 sgC7w 0 1 rfl rfl rfl rfl (by decide) (by decide) (by decide) (by decide)

/-- Claim C10 (confirmed): the per-access table `rngs` is bound only inside
the access loop, so (a) an input whose first array has an empty access-term
map fails with the unbound-local error instead of returning an empty entry,
and (b) a later array with no access terms silently receives the table
resolved for the preceding array's last access term. -/
theorem soap_C10 (sg : IOAnalysisSubgraph) (pp N : Nat)
    (hv : sg.variables.length = N) (hg : sg.p_grid.length = N)
    (hl : sg.loc_domain_dims.length = N) (hd : sg.dimensions_ordered.length = N)
    (hnd : sg.variables.Nodup) (hpp : pp < sg.p_grid.prod) :
    (∀ arr rest, sg.input_arrays = (arr, ([] : List (String × List String))) :: rest →
        get_data_decomposition sg pp = .error (.unboundLocal "rngs")) ∧
    (∀ pre a1 accs1 a2 l2 dist, accs1 ≠ [] →
        sg.input_arrays = pre ++ (a1, accs1) :: (a2, ([] : List (String × List String))) :: l2 →
        get_data_decomposition sg pp = .ok dist →
        ∃ last rngs, accs1.getLast? = some last ∧
          buildRngs (specIterTable sg pp) (splitStar last.1) [] = .ok rngs ∧
          (a1, rngs) ∈ dist ∧ (a2, rngs) ∈ dist) := by
  have hidle : ¬ (sg.p_grid.prod ≤ pp) := by omega
  have htab := build_iter_ranges_eq sg pp N hv hg hl hd hnd
  constructor
  · intro arr rest harr
    simp [get_data_decomposition, if_neg hidle, htab, harr, arrLoop, accessLoop]
  · intro pre a1 accs1 a2 l2 dist hne harr hok
    simp only [get_data_decomposition, if_neg hidle, htab, harr] at hok
    exact arrLoop_pair _ pre none dist a1 accs1 a2 l2 hne hok

/-- Witness for C10: on `sgC10a` (first array empty) rank 0 fails with the
unbound-local error, and on `sgC10b` the empty array `B` receives exactly
the table of `A`'s last access term. -/
theorem soap_C10_witness :
    get_data_decomposition sgC10a 0 = .error (.unboundLocal "rngs") ∧
    (∃ last rngs,
      ([("i", ["i"])] : List (String × List String)).getLast? = some last ∧
      buildRngs (specIterTable sgC10b 0) (splitStar last.1) [] = .ok rngs ∧
      ("A", rngs) ∈ [("A", [("i", ((0 : Nat), (4 : Nat)))]), ("B", [("i", (0, 4))])] ∧
      ("B", rngs) ∈ [("A", [("i", ((0 : Nat), (4 : Nat)))]), ("B", [("i", (0, 4))])]) :=
  ⟨(soap_C10 sgC10a 0 1 rfl rfl rfl rfl (by decide) (by decide)).1 "A"
      [("B", [("i", ["i"])])] rfl,
   (soap_C10 sgC10b 0 1 rfl rfl rfl rfl (by decide) (by decide)).2 [] "A"
      [("i", ["i"])] "B" [] [("A", [("i", (0, 4))]), ("B", [("i", (0, 4))])]
      (by decide) rfl (by decide)⟩

/-! ## Claims about the orchestrators -/

/-- Claim C8 (code bug): the graph-based orchestrator never reaches its
session setup.  Its docstring documents an optional `params` argument, but
the signature lacks it, so the opening `if not params:` reads an unassigned
local: every call raises `UnboundLocalError` and performs no collaborator
action at all — in particular no `Solver` is constructed, started, or given
the default 300-second timeout, contrary to the claim. -/
theorem soap_C8 (sdfg : SDFGModel) (gs : Bool) :
    perform_soap_analysis sdfg gs = (.error (.unboundLocalError "params"), []) := rfl

/-- Witness for C8: a concrete call fails immediately with the unbound
`params`. -/
theorem soap_C8_witness :
    perform_soap_analysis { components := 1 } false =
      (.error (.unboundLocalError "params"), []) :=
  soap_C8 { components := 1 } false

/-- Claim C4 (code bug): on a kernel graph that is not weakly connected the
einsum-based entry point aborts with `PreconditionFailure` immediately after
SDG construction and before any solver call — the check lives in the engine
(`calculate_IO_of_SDG`, modelled from spec §4.2); the orchestrator body
itself has no assertion on this path — and returns no partial analysis.  The
graph-based entry point does carry a weak-connectivity assertion right after
SDG construction in its source, but never reaches it: every call fails
first with `UnboundLocalError` on the undefined `params`, contrary to the
claim. -/
theorem soap_C4 (gen : String → SDFGModel) (cfg : SOAPParameters) (es : String)
    (params? : Option SOAPParameters) (gs : Bool)
    (hdisc : (gen es).components ≠ 1) :
    perform_soap_analysis_einsum gen cfg es params? gs =
      (.error .preconditionFailure, openEventsOf cfg params?) ∧
    (∀ k, Event.solverCall k ∉ (perform_soap_analysis_einsum gen cfg es params? gs).2) ∧
    (∀ sdfg gs2, perform_soap_analysis sdfg gs2 =
      (.error (.unboundLocalError "params"), [])) := by
  have h1 : perform_soap_analysis_einsum gen cfg es params? gs =
      (.error .preconditionFailure, openEventsOf cfg params?) := by
    simp [perform_soap_analysis_einsum, calculate_IO_of_SDG, SDG_of, hdisc]
  refine ⟨h1, ?_, fun _ _ => rfl⟩
  intro k
  rw [h1]
  cases params? <;> simp [openEventsOf, sessionOpenEvents]

/-- Witness for C4: a disconnected einsum-generated graph aborts with the
precondition failure after opening its own session, and a concrete
graph-based call dies on the unbound `params`. -/
theorem soap_C4_witness :
    perform_soap_analysis_einsum genDisc {} "ij,jk->ik" none true =
      (.error .preconditionFailure, openEventsOf {} none) ∧
    perform_soap_analysis { components := 2 } false =
      (.error (.unboundLocalError "params"), []) :=
  ⟨(soap_C4 genDisc {} "ij,jk->ik" none true (by decide)).1,
   (soap_C4 genDisc {} "ij,jk->ik" none true (by decide)).2.2 { components := 2 } false⟩

/-- Counterexample to C5 as stated: a successful einsum-based call that
opened its own session returns with that session still open — the trace
records the session opening and solver use but no `end_solver`. -/
theorem soap_C5_counterexample :
    perform_soap_analysis_einsum genConn {} "ik,kj->ij" none true =
      (.ok { name := "SDFG", Q := "Q",
             sdg := { components := 1, engineQ := "Q",
                      engineSubgraphs := [{ name := 0, decompLoc := [4],
                                            decompGrid := [2], decompGlob := [8] }] },
             subgraphs := [{ name := 0, loc_domain_dims := [4], p_grid := [2],
                             dimensions_ordered := [8] }] },
       [Event.solverStart false, Event.setTimeout 300, Event.solverCall 0,
        Event.initDecomp 0]) ∧
    Event.solverEnd ∉ [Event.solverStart false, Event.setTimeout 300,
      Event.solverCall 0, Event.initDecomp 0] :=
  ⟨by decide, by decide⟩

/-- Claim C5 (amended): the graph-based orchestrator opens no session — every
call fails with `UnboundLocalError` before the solver preamble — so it
trivially never exits holding one; the einsum-based orchestrator never calls
`end_solver`, so whenever it opens its own session (no caller-supplied
parameters) it terminates, on success and on precondition failure alike,
with that session still open. -/
theorem soap_C5 (gen : String → SDFGModel) (cfg : SOAPParameters) (es : String) (gs : Bool) :
    (∀ sdfg gs2, perform_soap_analysis sdfg gs2 =
        (.error (.unboundLocalError "params"), [])) ∧
    Event.solverStart cfg.remoteMatlab ∈ (perform_soap_analysis_einsum gen cfg es none gs).2 ∧
    Event.solverEnd ∉ (perform_soap_analysis_einsum gen cfg es none gs).2 := by
  refine ⟨fun _ _ => rfl, ?_, ?_⟩
  · by_cases h : (SDG_of (gen es)).components ≠ 1 <;>
      simp [perform_soap_analysis_einsum, calculate_IO_of_SDG, h, openEventsOf,
        sessionOpenEvents]
  · cases gs <;> by_cases h : (SDG_of (gen es)).components ≠ 1 <;>
      simp [perform_soap_analysis_einsum, calculate_IO_of_SDG, h, openEventsOf,
        sessionOpenEvents]

/-- Witness for C5 on a concrete successful own-session run: the session is
opened and never released. -/
theorem soap_C5_witness :
    Event.solverStart false ∈ (perform_soap_analysis_einsum genConn {} "ab" none true).2 ∧
    Event.solverEnd ∉ (perform_soap_analysis_einsum genConn {} "ab" none true).2 :=
  ⟨(soap_C5 genConn {} "ab" true).2.1, (soap_C5 genConn {} "ab" true).2.2⟩

/-- Claim C9 (code bug): the graph-based orchestrator's gating of the three
decomposition fields behind `generate_schedule` is present in its source but
unreachable — every call raises `UnboundLocalError` and returns no snapshot,
contrary to the claim.  The einsum-based orchestrator behaves as claimed:
it runs `init_decomposition` on each live subgraph exactly when the flag is
set, always copies the three decomposition fields from the (possibly
updated) live subgraph into the snapshot, and defaults the flag to true
(while the graph-based source defaults it to false). -/
theorem soap_C9 :
    (∀ sdfg gs, perform_soap_analysis sdfg gs =
        (.error (.unboundLocalError "params"), [])) ∧
    (∀ gen cfg es params? gs rec tr,
        perform_soap_analysis_einsum gen cfg es params? gs = (.ok rec, tr) →
        rec.subgraphs = (gen es).engineSubgraphs.map (snapshotEinsum gs) ∧
        (gs = false → ∀ n, Event.initDecomp n ∉ tr) ∧
        (gs = true → ∀ s ∈ (gen es).engineSubgraphs, Event.initDecomp s.name ∈ tr)) ∧
    (∀ subgr, (snapshotEinsum false subgr).loc_domain_dims = subgr.loc_domain_dims ∧
        (snapshotEinsum false subgr).p_grid = subgr.p_grid ∧
        (snapshotEinsum false subgr).dimensions_ordered = subgr.dimensions_ordered ∧
        (snapshotEinsum true subgr).loc_domain_dims =
          (init_decomposition subgr).loc_domain_dims ∧
        (snapshotEinsum true subgr).p_grid = (init_decomposition subgr).p_grid ∧
        (snapshotEinsum true subgr).dimensions_ordered =
          (init_decomposition subgr).dimensions_ordered) ∧
    (∀ gen cfg es params?, perform_soap_analysis_einsum_default gen cfg es params? =
        perform_soap_analysis_einsum gen cfg es params? true) ∧
    (∀ sdfg, perform_soap_analysis_default sdfg = perform_soap_analysis sdfg false) := by
  refine ⟨fun _ _ => rfl, ?_, fun _ => ⟨rfl, rfl, rfl, rfl, rfl, rfl⟩,
    fun _ _ _ _ => rfl, fun _ => rfl⟩
  intro gen cfg es params? gs rec tr h
  by_cases hc : (SDG_of (gen es)).components ≠ 1
  · simp [perform_soap_analysis_einsum, calculate_IO_of_SDG, hc] at h
  · simp only [perform_soap_analysis_einsum, calculate_IO_of_SDG, hc, if_false,
      ite_false, Prod.mk.injEq, Except.ok.injEq] at h
    obtain ⟨hrec, htr⟩ := h
    subst hrec
    subst htr
    refine ⟨rfl, ?_, ?_⟩
    · intro hgs n
      subst hgs
      simp [openEventsOf, sessionOpenEvents]
      cases params? <;> simp [openEventsOf, sessionOpenEvents]
    · intro hgs s hs
      subst hgs
      simp only [if_true, ite_true]
      refine List.mem_append.mpr (Or.inr ?_)
      exact List.mem_map.mpr ⟨s, hs, rfl⟩

/-- Witness for C9 on a concrete einsum run with the flag off: the snapshot
list copies the live fields untouched and no decomposition was initialized. -/
theorem soap_C9_witness :
    ([{ name := 0 }] : List IOAnalysisSubgraph) =
      (genConn "ij").engineSubgraphs.map (snapshotEinsum false) ∧
    (∀ n, Event.initDecomp n ∉ [Event.solverCall 0]) :=
  have h := soap_C9.2.1 genConn {} "ij" (some {}) false
    { name := "SDFG", Q := "Q",
      sdg := { components := 1, engineQ := "Q",
               engineSubgraphs := [{ name := 0, decompLoc := [4], decompGrid := [2],
                                     decompGlob := [8] }] },
      subgraphs := [{ name := 0 }] }
    [Event.solverCall 0] (by decide)
  ⟨h.1, fun n => h.2.1 rfl n⟩

end SoapVerif
